import Mathlib

/-
Verification of the smart-tag event tracker backend
(src/backend/src/index.ts): an in-memory event store with three HTTP
handlers (POST /api/events, GET /api/events, GET /api/stats).

The embedding models the mutable module state `events : TagEvent[]`,
`nextId : number` as a `Store`, and each Express handler as a pure
transition `step : Store → Op → Resp × Store`.  JSON bodies are modelled
with `Option String` fields so that JavaScript truthiness (`!tagId`) can
be expressed: a field is falsy when it is absent or the empty string.
-/

namespace SmartTag

/-- The event record type `TagEvent` from index.ts. -/
structure TagEvent where
  id : Nat
  tagId : String
  source : String
  type : String
  createdAt : String
deriving DecidableEq

/-- The module-level mutable state: `let events: TagEvent[] = []` and
`let nextId = 1`.  The array is kept newest-first, as in the source
(`events.unshift(event)`). -/
structure Store where
  events : List TagEvent
  nextId : Nat
deriving DecidableEq

/-- The state at process start: empty array, counter 1. -/
def initStore : Store := ⟨[], 1⟩

/-- A parsed JSON body for POST /api/events.  Each of the three
destructured fields may be absent. -/
structure Req where
  tagId : Option String
  source : Option String
  type : Option String
deriving DecidableEq

/-- JavaScript truthiness test `!x` on an optional string field:
an absent field and the empty string are falsy, every other string is
truthy. -/
def falsy : Option String → Bool
  | none => true
  | some s => s == ""

/-- A request body is valid when none of its three fields is falsy;
this is the negation of the guard `if (!tagId || !source || !type)`. -/
def validReq (r : Req) : Bool :=
  !(falsy r.tagId || falsy r.source || falsy r.type)

/-- Model of JavaScript `Set.prototype.add` on a set represented as its
insertion-ordered element list: a new element is appended at the end,
a present element is ignored. -/
def setInsert (s : List String) (x : String) : List String :=
  if x ∈ s then s else s ++ [x]

/-- Model of `new Set(l)`: insert the elements of `l` in order. -/
def setOfList (l : List String) : List String :=
  l.foldl setInsert []

/-- Model of `m[k] = (m[k] || 0) + 1` on a record represented as its
insertion-ordered key/value list: increment the entry for `k`, or append
`(k, 1)` when `k` has no entry yet. -/
def bump (m : List (String × Nat)) (k : String) : List (String × Nat) :=
  match m with
  | [] => [(k, 1)]
  | (k', v) :: rest =>
    if k' = k then (k', v + 1) :: rest else (k', v) :: bump rest k

/-- Reading `m[k] || 0` from such a record. -/
def getCount : List (String × Nat) → String → Nat
  | [], _ => 0
  | p :: rest, k => if p.1 = k then p.2 else getCount rest k

/-- Sum of all counts stored in a frequency record. -/
def sumVals (m : List (String × Nat)) : Nat :=
  (m.map (·.2)).sum

/-- The response body of GET /api/stats. -/
structure Stats where
  totalEvents : Nat
  uniqueTags : Nat
  eventsByType : List (String × Nat)
  eventsBySource : List (String × Nat)
deriving DecidableEq

/-- The body of the GET /api/stats handler: length, size of
`new Set(events.map(e => e.tagId))`, and the two frequency records
built by the `for (const e of events)` loop. -/
def computeStats (evs : List TagEvent) : Stats :=
  { totalEvents := evs.length
    uniqueTags := (setOfList (evs.map (·.tagId))).length
    eventsByType := evs.foldl (fun m e => bump m e.type) []
    eventsBySource := evs.foldl (fun m e => bump m e.source) [] }

/-- The response sent by one handler invocation.  `created` carries
status 201, `badRequest` status 400, the two reads status 200. -/
inductive Resp where
  | created (e : TagEvent)
  | badRequest (message : String)
  | okEvents (evs : List TagEvent)
  | okStats (s : Stats)
deriving DecidableEq

/-- One incoming HTTP request: a POST with parsed body and the
timestamp the server clock would produce, or one of the two GETs. -/
inductive Op where
  | post (r : Req) (now : String)
  | getEvents
  | getStats
deriving DecidableEq

/-- The record built by `const event: TagEvent = { id: nextId++, ... }`
for a request that passed the guard: the current counter value, the
three (truthy) body fields, and the server timestamp. -/
def mkEvent (st : Store) (r : Req) (now : String) : TagEvent :=
  { id := st.nextId
    tagId := r.tagId.getD ""
    source := r.source.getD ""
    type := r.type.getD ""
    createdAt := now }

/-- One handler invocation.  `post`: the guard, `nextId++`, record
construction and `events.unshift`; `getEvents`: `res.json(events)`;
`getStats`: the stats computation.  Only a successful POST touches the
state. -/
def step (st : Store) : Op → Resp × Store
  | .post r now =>
    if falsy r.tagId || falsy r.source || falsy r.type then
      (.badRequest "tagId, source and type are required", st)
    else
      (.created (mkEvent st r now),
        { events := mkEvent st r now :: st.events, nextId := st.nextId + 1 })
  | .getEvents => (.okEvents st.events, st)
  | .getStats => (.okStats (computeStats st.events), st)

/-- Run a sequence of requests against the server, collecting the
responses and the final state. -/
def runAll (st : Store) : List Op → List Resp × Store
  | [] => ([], st)
  | op :: ops =>
    let p := step st op
    let q := runAll p.2 ops
    (p.1 :: q.1, q.2)

/-- The ids of the events returned by the successful creates among a
list of responses, in order. -/
def createdIds (rs : List Resp) : List Nat :=
  rs.filterMap fun
    | .created e => some e.id
    | _ => none

/-- A batch of POST requests (body and server timestamp for each). -/
def posts (rs : List (Req × String)) : List Op :=
  rs.map fun p => Op.post p.1 p.2

/-- The event records a batch of valid POSTs creates, oldest first,
when the counter starts at `base`. -/
def mkEvents (base : Nat) : List (Req × String) → List TagEvent
  | [] => []
  | (r, now) :: rest =>
    { id := base
      tagId := r.tagId.getD ""
      source := r.source.getD ""
      type := r.type.getD ""
      createdAt := now } :: mkEvents (base + 1) rest

@[simp] theorem runAll_nil (st : Store) : runAll st [] = ([], st) := rfl

theorem runAll_cons (st : Store) (op : Op) (ops : List Op) :
    runAll st (op :: ops) =
      ((step st op).1 :: (runAll (step st op).2 ops).1,
        (runAll (step st op).2 ops).2) := rfl

theorem step_post_valid (st : Store) (r : Req) (now : String)
    (h : validReq r = true) :
    step st (.post r now) =
      (.created (mkEvent st r now),
        { events := mkEvent st r now :: st.events,
          nextId := st.nextId + 1 }) := by
  simp only [validReq, Bool.not_eq_true'] at h
  simp [step, h]

theorem posts_cons (p : Req × String) (rs : List (Req × String)) :
    posts (p :: rs) = Op.post p.1 p.2 :: posts rs := rfl

theorem runAll_posts (rs : List (Req × String)) (st : Store)
    (h : ∀ p ∈ rs, validReq p.1 = true) :
    runAll st (posts rs) =
      ((mkEvents st.nextId rs).map Resp.created,
        ⟨(mkEvents st.nextId rs).reverse ++ st.events, st.nextId + rs.length⟩) := by
  induction rs generalizing st with
  | nil => simp [posts, mkEvents]
  | cons p rest ih =>
    obtain ⟨r, now⟩ := p
    have hr : validReq r = true := h _ (List.mem_cons_self _ _)
    have hrest : ∀ q ∈ rest, validReq q.1 = true :=
      fun q hq => h q (List.mem_cons_of_mem _ hq)
    rw [posts_cons, runAll_cons, step_post_valid _ _ _ hr]
    simp only [ih _ hrest]
    simp [mkEvents, mkEvent, List.append_assoc]
    omega

theorem mkEvents_map_id (base : Nat) (rs : List (Req × String)) :
    (mkEvents base rs).map (·.id) = List.range' base rs.length := by
  induction rs generalizing base with
  | nil => simp [mkEvents]
  | cons p rest ih =>
    obtain ⟨r, now⟩ := p
    simp [mkEvents, List.range'_succ, ih]

theorem mkEvents_length (base : Nat) (rs : List (Req × String)) :
    (mkEvents base rs).length = rs.length := by
  induction rs generalizing base with
  | nil => rfl
  | cons p rest ih =>
    obtain ⟨r, now⟩ := p
    simp [mkEvents, ih]

theorem createdIds_map_created (evs : List TagEvent) :
    createdIds (evs.map Resp.created) = evs.map (·.id) := by
  induction evs with
  | nil => rfl
  | cons e rest ih => simp [createdIds, List.filterMap_cons] at ih ⊢; exact ih

theorem mem_setInsert (s : List String) (a x : String) :
    x ∈ setInsert s a ↔ x ∈ s ∨ x = a := by
  unfold setInsert
  split
  case isTrue h =>
    constructor
    · exact Or.inl
    · rintro (hx | rfl)
      · exact hx
      · exact h
  case isFalse h => simp

theorem nodup_setInsert (s : List String) (a : String) (h : s.Nodup) :
    (setInsert s a).Nodup := by
  unfold setInsert
  split
  case isTrue => exact h
  case isFalse hna =>
    simpa [List.nodup_append, h] using hna

theorem length_le_setInsert (s : List String) (a : String) :
    s.length ≤ (setInsert s a).length := by
  unfold setInsert
  split <;> simp

theorem setInsert_length_le (s : List String) (a : String) :
    (setInsert s a).length ≤ s.length + 1 := by
  unfold setInsert
  split <;> simp

theorem mem_foldl_setInsert (l : List String) (s : List String) (x : String) :
    x ∈ l.foldl setInsert s ↔ x ∈ s ∨ x ∈ l := by
  induction l generalizing s with
  | nil => simp
  | cons a rest ih =>
    simp only [List.foldl_cons, ih, mem_setInsert, List.mem_cons]
    tauto

theorem nodup_foldl_setInsert (l : List String) (s : List String)
    (h : s.Nodup) : (l.foldl setInsert s).Nodup := by
  induction l generalizing s with
  | nil => exact h
  | cons a rest ih => exact ih _ (nodup_setInsert _ _ h)

theorem length_le_foldl_setInsert (l : List String) (s : List String) :
    s.length ≤ (l.foldl setInsert s).length := by
  induction l generalizing s with
  | nil => exact Nat.le_refl _
  | cons a rest ih =>
    exact Nat.le_trans (length_le_setInsert s a) (ih _)

theorem foldl_setInsert_length_le (l : List String) (s : List String) :
    (l.foldl setInsert s).length ≤ s.length + l.length := by
  induction l generalizing s with
  | nil => simp
  | cons a rest ih =>
    calc (rest.foldl setInsert (setInsert s a)).length
        ≤ (setInsert s a).length + rest.length := ih _
      _ ≤ s.length + 1 + rest.length :=
          Nat.add_le_add_right (setInsert_length_le s a) _
      _ = s.length + (a :: rest).length := by simp; omega

theorem mem_setOfList (l : List String) (x : String) :
    x ∈ setOfList l ↔ x ∈ l := by
  simp [setOfList, mem_foldl_setInsert]

theorem nodup_setOfList (l : List String) : (setOfList l).Nodup :=
  nodup_foldl_setInsert l [] List.nodup_nil

theorem setOfList_length_le (l : List String) :
    (setOfList l).length ≤ l.length := by
  simpa using foldl_setInsert_length_le l []

theorem setOfList_length_eq_card (l : List String) :
    (setOfList l).length = l.toFinset.card := by
  have hfin : (setOfList l).toFinset = l.toFinset := by
    ext x
    simp [List.mem_toFinset, mem_setOfList]
  calc (setOfList l).length
      = (setOfList l).toFinset.card :=
        (List.toFinset_card_of_nodup (nodup_setOfList l)).symm
    _ = l.toFinset.card := by rw [hfin]

theorem setOfList_eq_nil_iff (l : List String) :
    setOfList l = [] ↔ l = [] := by
  constructor
  · intro h
    cases l with
    | nil => rfl
    | cons a rest =>
      exfalso
      have h1 : 1 ≤ (setOfList (a :: rest)).length := by
        have := length_le_foldl_setInsert rest (setInsert [] a)
        simpa [setOfList, setInsert] using this
      rw [h] at h1
      simp at h1
  · rintro rfl
    rfl

theorem getCount_bump (m : List (String × Nat)) (k' k : String) :
    getCount (bump m k') k =
      if k' = k then getCount m k + 1 else getCount m k := by
  induction m with
  | nil =>
    by_cases h : k' = k <;> simp [bump, getCount, h]
  | cons p rest ih =>
    obtain ⟨k₀, v⟩ := p
    by_cases h0 : k₀ = k'
    · subst h0
      by_cases h : k₀ = k <;> simp [bump, getCount, h]
    · by_cases h : k₀ = k
      · subst h
        have hne : ¬ k' = k₀ := fun hc => h0 hc.symm
        simp [bump, getCount, h0, hne]
      · simp [bump, getCount, h0, h, ih]

theorem sumVals_bump (m : List (String × Nat)) (k : String) :
    sumVals (bump m k) = sumVals m + 1 := by
  induction m with
  | nil => simp [bump, sumVals]
  | cons p rest ih =>
    obtain ⟨k₀, v⟩ := p
    by_cases h : k₀ = k
    · simp [bump, sumVals, h]
      omega
    · simp [bump, sumVals, h] at ih ⊢
      omega

theorem bump_pos (m : List (String × Nat)) (k : String)
    (h : ∀ p ∈ m, 1 ≤ p.2) : ∀ p ∈ bump m k, 1 ≤ p.2 := by
  induction m with
  | nil =>
    intro p hp
    simp [bump] at hp
    simp [hp]
  | cons q rest ih =>
    obtain ⟨k₀, v⟩ := q
    intro p hp
    by_cases hk : k₀ = k
    · simp [bump, hk] at hp
      rcases hp with rfl | hp
      · simp
      · exact h p (List.mem_cons_of_mem _ hp)
    · simp [bump, hk] at hp
      rcases hp with rfl | hp
      · exact h ⟨k₀, v⟩ (List.mem_cons_self _ _)
      · exact ih (fun q hq => h q (List.mem_cons_of_mem _ hq)) p hp

theorem getCount_foldl_bump (f : TagEvent → String) (k : String)
    (evs : List TagEvent) (m : List (String × Nat)) :
    getCount (evs.foldl (fun m e => bump m (f e)) m) k =
      getCount m k + evs.countP (fun e => f e == k) := by
  induction evs generalizing m with
  | nil => simp
  | cons e rest ih =>
    simp only [List.foldl_cons, ih, getCount_bump, List.countP_cons]
    by_cases h : f e = k
    · simp [h]
      omega
    · simp [h]

theorem sumVals_foldl_bump (f : TagEvent → String)
    (evs : List TagEvent) (m : List (String × Nat)) :
    sumVals (evs.foldl (fun m e => bump m (f e)) m) =
      sumVals m + evs.length := by
  induction evs generalizing m with
  | nil => simp
  | cons e rest ih =>
    simp only [List.foldl_cons, ih, sumVals_bump, List.length_cons]
    omega

theorem pos_foldl_bump (f : TagEvent → String)
    (evs : List TagEvent) (m : List (String × Nat))
    (h : ∀ p ∈ m, 1 ≤ p.2) :
    ∀ p ∈ evs.foldl (fun m e => bump m (f e)) m, 1 ≤ p.2 := by
  induction evs generalizing m with
  | nil => exact h
  | cons e rest ih => exact ih _ (bump_pos _ _ h)

theorem falsy_iff (o : Option String) :
    falsy o = true ↔ o = none ∨ o = some "" := by
  cases o with
  | none => simp [falsy]
  | some s => simp [falsy]

theorem runAll_events_split (ops : List Op) (st : Store) :
    ∃ pre : List TagEvent,
      (runAll st ops).2.events = pre ++ st.events ∧
      pre.length = (createdIds (runAll st ops).1).length := by
  induction ops generalizing st with
  | nil => exact ⟨[], by simp [createdIds]⟩
  | cons op ops ih =>
    rw [runAll_cons]
    cases op with
    | post r now =>
      cases hfal : (falsy r.tagId || falsy r.source || falsy r.type) with
      | true =>
        obtain ⟨pre, h1, h2⟩ := ih st
        have hstep : step st (.post r now) =
            (.badRequest "tagId, source and type are required", st) := by
          simp [step, hfal]
        rw [hstep]
        exact ⟨pre, h1, by simpa [createdIds] using h2⟩
      | false =>
        have hstep : step st (.post r now) =
            (.created (mkEvent st r now),
              { events := mkEvent st r now :: st.events,
                nextId := st.nextId + 1 }) := by
          simp [step, hfal]
        rw [hstep]
        obtain ⟨pre, h1, h2⟩ :=
          ih { events := mkEvent st r now :: st.events, nextId := st.nextId + 1 }
        refine ⟨pre ++ [mkEvent st r now], ?_, ?_⟩
        · simpa using h1
        · simpa [createdIds] using h2
    | getEvents =>
      obtain ⟨pre, h1, h2⟩ := ih st
      exact ⟨pre, by simpa [step] using h1, by simpa [step, createdIds] using h2⟩
    | getStats =>
      obtain ⟨pre, h1, h2⟩ := ih st
      exact ⟨pre, by simpa [step] using h1, by simpa [step, createdIds] using h2⟩

theorem step_inv (st : Store) (op : Op)
    (h1 : st.nextId = st.events.length + 1)
    (h2 : st.events.map (·.id) = (List.range' 1 st.events.length).reverse) :
    (step st op).2.nextId = (step st op).2.events.length + 1 ∧
    (step st op).2.events.map (·.id) =
      (List.range' 1 (step st op).2.events.length).reverse := by
  cases op with
  | post r now =>
    cases hfal : (falsy r.tagId || falsy r.source || falsy r.type) with
    | true => simp [step, hfal, h1, h2]
    | false =>
      have hstep : step st (.post r now) =
          (.created (mkEvent st r now),
            { events := mkEvent st r now :: st.events,
              nextId := st.nextId + 1 }) := by
        simp [step, hfal]
      rw [hstep]
      refine ⟨by simp [h1], ?_⟩
      simp only [List.map_cons, List.length_cons, h2, List.range'_1_concat,
        List.reverse_append, List.reverse_cons, List.reverse_nil,
        List.nil_append, List.singleton_append]
      simp [mkEvent, h1, Nat.add_comm]
  | getEvents => exact ⟨h1, h2⟩
  | getStats => exact ⟨h1, h2⟩

theorem runAll_inv (ops : List Op) (st : Store)
    (h1 : st.nextId = st.events.length + 1)
    (h2 : st.events.map (·.id) = (List.range' 1 st.events.length).reverse) :
    (runAll st ops).2.nextId = (runAll st ops).2.events.length + 1 ∧
    (runAll st ops).2.events.map (·.id) =
      (List.range' 1 (runAll st ops).2.events.length).reverse := by
  induction ops generalizing st with
  | nil => exact ⟨h1, h2⟩
  | cons op ops ih =>
    rw [runAll_cons]
    obtain ⟨g1, g2⟩ := step_inv st op h1 h2
    exact ih _ g1 g2

/-- C1: over any sequence of successful appends (all fields truthy),
the ids returned are exactly 1, 2, ..., N: the first is 1, each is one
more than the previous, and they are positive, pairwise distinct and
never reused. -/
theorem C1_append_ids_sequential (rs : List (Req × String))
    (h : ∀ p ∈ rs, validReq p.1 = true) :
    createdIds (runAll initStore (posts rs)).1 = List.range' 1 rs.length := by
  rw [runAll_posts rs initStore h]
  simp only [createdIds_map_created, mkEvents_map_id]
  rfl

/-- Witness for C1: a concrete batch of three valid appends returns
ids [1, 2, 3]. -/
theorem C1_append_ids_sequential_witness :
    (∀ p ∈ [((⟨some "tag-1", some "scanner", some "check-in"⟩ : Req), "t1"),
            ((⟨some "tag-2", some "scanner", some "alert"⟩ : Req), "t2"),
            ((⟨some "tag-1", some "gate", some "status"⟩ : Req), "t3")],
        validReq p.1 = true) ∧
    createdIds (runAll initStore (posts
        [((⟨some "tag-1", some "scanner", some "check-in"⟩ : Req), "t1"),
         ((⟨some "tag-2", some "scanner", some "alert"⟩ : Req), "t2"),
         ((⟨some "tag-1", some "gate", some "status"⟩ : Req), "t3")])).1 =
      List.range' 1 3 :=
  ⟨by decide, C1_append_ids_sequential _ (by decide)⟩

/-- C2: a POST whose body has any of tagId, source, type absent or
empty yields the 400 response with its message, and the store — event
list and id counter alike — is returned unchanged. -/
theorem C2_invalid_post_rejected (st : Store) (r : Req) (now : String)
    (h : r.tagId = none ∨ r.tagId = some "" ∨ r.source = none ∨
      r.source = some "" ∨ r.type = none ∨ r.type = some "") :
    step st (.post r now) =
      (.badRequest "tagId, source and type are required", st) := by
  have hfal : (falsy r.tagId || falsy r.source || falsy r.type) = true := by
    rcases h with h | h | h | h | h | h <;> simp [falsy, h]
  simp [step, hfal]

/-- Witness for C2: a POST missing its source field against a store
holding one event and counter 2 is rejected and the store is intact. -/
theorem C2_invalid_post_rejected_witness :
    ((⟨some "tag-1", none, some "alert"⟩ : Req).tagId = none ∨
     (⟨some "tag-1", none, some "alert"⟩ : Req).tagId = some "" ∨
     (⟨some "tag-1", none, some "alert"⟩ : Req).source = none ∨
     (⟨some "tag-1", none, some "alert"⟩ : Req).source = some "" ∨
     (⟨some "tag-1", none, some "alert"⟩ : Req).type = none ∨
     (⟨some "tag-1", none, some "alert"⟩ : Req).type = some "") ∧
    step ⟨[⟨1, "tag-1", "scanner", "check-in", "t1"⟩], 2⟩
        (.post ⟨some "tag-1", none, some "alert"⟩ "t2") =
      (.badRequest "tagId, source and type are required",
        ⟨[⟨1, "tag-1", "scanner", "check-in", "t1"⟩], 2⟩) :=
  ⟨by decide,
    C2_invalid_post_rejected ⟨[⟨1, "tag-1", "scanner", "check-in", "t1"⟩], 2⟩
      ⟨some "tag-1", none, some "alert"⟩ "t2" (by decide)⟩

/-- C3: after any N successful appends from the initial store, the
stored list has exactly N events, their ids read N, N-1, ..., 1 from
the front (element 0 carries the highest id), and the id sequence is
strictly decreasing. -/
theorem C3_list_newest_first (rs : List (Req × String))
    (h : ∀ p ∈ rs, validReq p.1 = true) :
    (runAll initStore (posts rs)).2.events.length = rs.length ∧
    (runAll initStore (posts rs)).2.events.map (·.id) =
      (List.range' 1 rs.length).reverse ∧
    ((runAll initStore (posts rs)).2.events.map (·.id)).Pairwise (· > ·) := by
  rw [runAll_posts rs initStore h]
  have hmap : ((mkEvents initStore.nextId rs).reverse ++
      initStore.events).map (·.id) = (List.range' 1 rs.length).reverse := by
    simp only [initStore, List.append_nil, List.map_reverse, mkEvents_map_id]
  refine ⟨?_, hmap, ?_⟩
  · simp [mkEvents_length, initStore]
  · rw [hmap, List.pairwise_reverse]
    simpa using List.pairwise_lt_range' 1 rs.length

/-- Witness for C3: after three concrete valid appends the stored ids
are [3, 2, 1]. -/
theorem C3_list_newest_first_witness :
    (∀ p ∈ [((⟨some "tag-1", some "scanner", some "check-in"⟩ : Req), "t1"),
            ((⟨some "tag-2", some "scanner", some "alert"⟩ : Req), "t2"),
            ((⟨some "tag-1", some "gate", some "status"⟩ : Req), "t3")],
        validReq p.1 = true) ∧
    ((runAll initStore (posts
        [((⟨some "tag-1", some "scanner", some "check-in"⟩ : Req), "t1"),
         ((⟨some "tag-2", some "scanner", some "alert"⟩ : Req), "t2"),
         ((⟨some "tag-1", some "gate", some "status"⟩ : Req), "t3")])).2.events.length = 3 ∧
     (runAll initStore (posts
        [((⟨some "tag-1", some "scanner", some "check-in"⟩ : Req), "t1"),
         ((⟨some "tag-2", some "scanner", some "alert"⟩ : Req), "t2"),
         ((⟨some "tag-1", some "gate", some "status"⟩ : Req), "t3")])).2.events.map (·.id) =
       (List.range' 1 3).reverse ∧
     ((runAll initStore (posts
        [((⟨some "tag-1", some "scanner", some "check-in"⟩ : Req), "t1"),
         ((⟨some "tag-2", some "scanner", some "alert"⟩ : Req), "t2"),
         ((⟨some "tag-1", some "gate", some "status"⟩ : Req), "t3")])).2.events.map (·.id)).Pairwise (· > ·)) :=
  ⟨by decide, C3_list_newest_first _ (by decide)⟩

/-- The example batch of the spec: three valid appends with tagIds
"A", "A", "B". -/
def tagExample : List (Req × String) :=
  [(⟨some "A", some "scanner", some "check-in"⟩, "t1"),
   (⟨some "A", some "scanner", some "check-in"⟩, "t2"),
   (⟨some "B", some "scanner", some "check-in"⟩, "t3")]

/-- The example batch of the spec: three valid appends with types
"alert", "status", "alert". -/
def typeExample : List (Req × String) :=
  [(⟨some "T1", some "scanner", some "alert"⟩, "t1"),
   (⟨some "T2", some "scanner", some "status"⟩, "t2"),
   (⟨some "T3", some "scanner", some "alert"⟩, "t3")]

/-- C4: for every store contents, the stats are exact: totalEvents is
the number of stored events, uniqueTags the number of distinct tagId
values, and the two tables give the exact per-type and per-source
frequencies; in particular the two example batches of the spec yield
totalEvents 3 with uniqueTags 2, and alert 2 with status 1. -/
theorem C4_computeStats_correct :
    (∀ evs : List TagEvent,
      (computeStats evs).totalEvents = evs.length ∧
      (computeStats evs).uniqueTags = (evs.map (·.tagId)).toFinset.card ∧
      (∀ k, getCount (computeStats evs).eventsByType k =
        evs.countP (fun e => e.type == k)) ∧
      (∀ k, getCount (computeStats evs).eventsBySource k =
        evs.countP (fun e => e.source == k))) ∧
    ((computeStats (runAll initStore (posts tagExample)).2.events).totalEvents = 3 ∧
     (computeStats (runAll initStore (posts tagExample)).2.events).uniqueTags = 2) ∧
    (getCount (computeStats
        (runAll initStore (posts typeExample)).2.events).eventsByType "alert" = 2 ∧
     getCount (computeStats
        (runAll initStore (posts typeExample)).2.events).eventsByType "status" = 1) := by
  refine ⟨fun evs => ⟨rfl, ?_, ?_, ?_⟩, by decide, by decide⟩
  · exact setOfList_length_eq_card _
  · intro k
    simpa [computeStats, getCount] using getCount_foldl_bump (·.type) k evs []
  · intro k
    simpa [computeStats, getCount] using getCount_foldl_bump (·.source) k evs []

/-- C5: an Event returned by a successful POST is later found, field
for field, at the corresponding position of the stored list: after any
further request sequence it sits at index (number of later successful
creates), unchanged. -/
theorem C5_append_list_roundtrip (st st₁ : Store) (r : Req) (now : String)
    (ev : TagEvent) (h : step st (.post r now) = (.created ev, st₁))
    (ops : List Op) :
    (runAll st₁ ops).2.events[(createdIds (runAll st₁ ops).1).length]? =
      some ev := by
    have hev : st₁.events = ev :: st.events := by
      cases hfal : (falsy r.tagId || falsy r.source || falsy r.type) with
      | true => simp [step, hfal] at h
      | false =>
        simp [step, hfal] at h
        obtain ⟨rfl, rfl⟩ := h
        rfl
    obtain ⟨pre, h1, h2⟩ := runAll_events_split ops st₁
    rw [h1, hev, ← h2, List.getElem?_append_right (Nat.le_refl _)]
    simp

/-- Witness for C5: the event created by a concrete successful POST is
still at the expected index after one further successful POST. -/
theorem C5_append_list_roundtrip_witness :
    step initStore (.post ⟨some "tag-1", some "scanner", some "alert"⟩ "t1") =
      (.created ⟨1, "tag-1", "scanner", "alert", "t1"⟩,
        ⟨[⟨1, "tag-1", "scanner", "alert", "t1"⟩], 2⟩) ∧
    (runAll ⟨[⟨1, "tag-1", "scanner", "alert", "t1"⟩], 2⟩
        [.post ⟨some "tag-2", some "gate", some "status"⟩ "t2"]).2.events[
      (createdIds (runAll ⟨[⟨1, "tag-1", "scanner", "alert", "t1"⟩], 2⟩
        [.post ⟨some "tag-2", some "gate", some "status"⟩ "t2"]).1).length]? =
      some ⟨1, "tag-1", "scanner", "alert", "t1"⟩ :=
  ⟨by decide,
    C5_append_list_roundtrip initStore
      ⟨[⟨1, "tag-1", "scanner", "alert", "t1"⟩], 2⟩
      ⟨some "tag-1", some "scanner", some "alert"⟩ "t1"
      ⟨1, "tag-1", "scanner", "alert", "t1"⟩ (by decide)
      [.post ⟨some "tag-2", some "gate", some "status"⟩ "t2"]⟩

/-- C6: any sequence consisting only of the two read requests leaves
the store exactly as it was, and every response in it equals the
response the single request would give on the starting store — reads
are idempotent and mutate nothing. -/
theorem C6_reads_idempotent (st : Store) (ops : List Op)
    (h : ∀ op ∈ ops, op = Op.getEvents ∨ op = Op.getStats) :
    (runAll st ops).2 = st ∧
    (runAll st ops).1 = ops.map (fun op => (step st op).1) := by
  induction ops with
  | nil => simp
  | cons op rest ih =>
    have hop := h op (List.mem_cons_self _ _)
    have hrest : ∀ op ∈ rest, op = Op.getEvents ∨ op = Op.getStats :=
      fun op hm => h op (List.mem_cons_of_mem _ hm)
    obtain ⟨ih1, ih2⟩ := ih hrest
    rcases hop with rfl | rfl <;>
      exact ⟨by simpa [runAll_cons, step] using ih1,
        by simp [runAll_cons, step, ih2]⟩

/-- Witness for C6: four interleaved reads on a one-event store leave
it unchanged and return the same list and the same stats each time. -/
theorem C6_reads_idempotent_witness :
    (∀ op ∈ [Op.getEvents, Op.getStats, Op.getEvents, Op.getStats],
      op = Op.getEvents ∨ op = Op.getStats) ∧
    (runAll ⟨[⟨1, "tag-1", "scanner", "alert", "t1"⟩], 2⟩
        [Op.getEvents, Op.getStats, Op.getEvents, Op.getStats]).2 =
      ⟨[⟨1, "tag-1", "scanner", "alert", "t1"⟩], 2⟩ ∧
    (runAll ⟨[⟨1, "tag-1", "scanner", "alert", "t1"⟩], 2⟩
        [Op.getEvents, Op.getStats, Op.getEvents, Op.getStats]).1 =
      [Op.getEvents, Op.getStats, Op.getEvents, Op.getStats].map
        (fun op => (step ⟨[⟨1, "tag-1", "scanner", "alert", "t1"⟩], 2⟩ op).1) := by
  have h := C6_reads_idempotent ⟨[⟨1, "tag-1", "scanner", "alert", "t1"⟩], 2⟩
    [Op.getEvents, Op.getStats, Op.getEvents, Op.getStats] (by decide)
  exact ⟨by decide, h.1, h.2⟩

/-- C7: frame property — the two reads return the store untouched; a
POST either leaves the store exactly as it was (rejection) or returns
a created event and the store with exactly that event pushed on the
front and the counter advanced by one; and under every operation the
previous event list survives as a suffix, so no existing event is ever
updated or deleted. -/
theorem C7_frame_no_update_no_delete :
    (∀ st : Store, step st Op.getEvents = (.okEvents st.events, st)) ∧
    (∀ st : Store, step st Op.getStats = (.okStats (computeStats st.events), st)) ∧
    (∀ (st : Store) (r : Req) (now : String),
      (step st (Op.post r now)).2 = st ∨
      ∃ ev : TagEvent, step st (Op.post r now) =
        (.created ev, ⟨ev :: st.events, st.nextId + 1⟩)) ∧
    (∀ (st : Store) (op : Op), List.IsSuffix st.events (step st op).2.events) := by
  refine ⟨fun st => rfl, fun st => rfl, ?_, ?_⟩
  · intro st r now
    cases hfal : (falsy r.tagId || falsy r.source || falsy r.type) with
    | true => exact Or.inl (by simp [step, hfal])
    | false => exact Or.inr ⟨mkEvent st r now, by simp [step, hfal]⟩
  · intro st op
    cases op with
    | post r now =>
      cases hfal : (falsy r.tagId || falsy r.source || falsy r.type) with
      | true => simp [step, hfal]
      | false =>
        simp only [step, hfal]
        exact ⟨[mkEvent st r now], rfl⟩
    | getEvents => exact List.suffix_refl _
    | getStats => exact List.suffix_refl _

/-- C8: the POST handler answers 400 exactly when some field is absent
or falsy (for string fields: the empty string); a whitespace-only
string is truthy, so a body of " " fields is accepted and the created
event stores them unmodified. -/
theorem C8_reject_iff_falsy :
    (∀ (st : Store) (r : Req) (now : String),
      (step st (Op.post r now)).1 =
          Resp.badRequest "tagId, source and type are required" ↔
        (r.tagId = none ∨ r.tagId = some "" ∨ r.source = none ∨
          r.source = some "" ∨ r.type = none ∨ r.type = some "")) ∧
    step initStore (Op.post ⟨some " ", some " ", some " "⟩ "t1") =
      (.created ⟨1, " ", " ", " ", "t1"⟩, ⟨[⟨1, " ", " ", " ", "t1"⟩], 2⟩) := by
  refine ⟨?_, by decide⟩
  intro st r now
  cases hfal : (falsy r.tagId || falsy r.source || falsy r.type) with
  | true =>
    simp only [step, hfal]
    simp only [Bool.or_eq_true, falsy_iff] at hfal
    simp [hfal]
    tauto
  | false =>
    simp only [step, hfal]
    have := hfal
    simp only [Bool.or_eq_false_iff] at this
    obtain ⟨⟨hta, hso⟩, hty⟩ := this
    rw [Bool.eq_false_iff] at hta hso hty
    simp only [Ne, falsy_iff] at hta hso hty
    simp
    tauto

/-- C9: in every state reachable from the initial store by any request
sequence, the counter equals the number of stored events plus one, and
the stored ids read N, N-1, ..., 1 from the front — the ids present
are exactly the consecutive integers 1..N with no gaps, rejected
creates leaving none. -/
theorem C9_reachable_ids_consecutive (ops : List Op) :
    (runAll initStore ops).2.nextId =
      (runAll initStore ops).2.events.length + 1 ∧
    (runAll initStore ops).2.events.map (·.id) =
      (List.range' 1 (runAll initStore ops).2.events.length).reverse :=
  runAll_inv ops initStore rfl rfl

/-- C10: for every store contents the stats are internally consistent:
both frequency tables sum to totalEvents, every tabulated count is at
least 1, uniqueTags never exceeds totalEvents, and uniqueTags is zero
exactly when the store is empty. -/
theorem C10_stats_consistent (evs : List TagEvent) :
    sumVals (computeStats evs).eventsByType = (computeStats evs).totalEvents ∧
    sumVals (computeStats evs).eventsBySource = (computeStats evs).totalEvents ∧
    (∀ p ∈ (computeStats evs).eventsByType, 1 ≤ p.2) ∧
    (∀ p ∈ (computeStats evs).eventsBySource, 1 ≤ p.2) ∧
    (computeStats evs).uniqueTags ≤ (computeStats evs).totalEvents ∧
    ((computeStats evs).uniqueTags = 0 ↔ evs = []) := by
  refine ⟨?_, ?_, ?_, ?_, ?_, ?_⟩
  · simpa [computeStats, sumVals] using sumVals_foldl_bump (·.type) evs []
  · simpa [computeStats, sumVals] using sumVals_foldl_bump (·.source) evs []
  · exact pos_foldl_bump (·.type) evs [] (by simp)
  · exact pos_foldl_bump (·.source) evs [] (by simp)
  · calc (computeStats evs).uniqueTags
        ≤ (evs.map (·.tagId)).length := setOfList_length_le _
      _ = evs.length := by simp
  · show (setOfList (evs.map (·.tagId))).length = 0 ↔ evs = []
    rw [List.length_eq_zero, setOfList_eq_nil_iff, List.map_eq_nil_iff]

end SmartTag
